import Mathlib

/-
Verification of the Grip package manager (src/main.rs) against its design
specification. The installer orchestration, the install ledger and the
registry administrative commands are embedded from src/main.rs; the
collaborator modules that are not part of the provided sources
(registry::download_asset, utils::extract_archive, path::add_to_path) are
modelled from the specification, as marked on each definition.
-/

namespace Grip

/-! ## Paths

Rust PathBuf values are modelled as strings; PathBuf::join inserts a
separator, and equality of PathBuf values is equality of the underlying
strings. -/

/-- PathBuf::join with a relative component. -/
def pathJoin (p c : String) : String := p ++ "/" ++ c

/-- Split a character list at every occurrence of the separator character;
the same splitting str::split performs with a one-character pattern. -/
def splitOnChar (c : Char) : List Char → List (List Char)
  | [] => [[]]
  | x :: rest =>
    match splitOnChar c rest with
    | [] => [[x]]
    | hd :: tl => if x = c then [] :: hd :: tl else (x :: hd) :: tl

/-- Join string pieces with a separator between them. -/
def joinWith (sep : String) : List String → String
  | [] => ""
  | [x] => x
  | x :: rest => x ++ sep ++ joinWith sep rest

/-- The separator-delimited components of a path string. -/
def pathParts (p : String) : List String :=
  (splitOnChar (Char.ofNat 47) p.data).map String.mk

/-- Path::file_name as a string (the component after the last separator). -/
def fileNameOf (p : String) : String := (pathParts p).getLastD ""

/-- PathBuf::set_file_name: replace the component after the last separator. -/
def setFileName (p n : String) : String :=
  joinWith "/" ((pathParts p).dropLast ++ [n])

/-- The dot-delimited pieces of a bare file name. -/
def dotParts (name : String) : List String :=
  (splitOnChar (Char.ofNat 46) name.data).map String.mk

/-- Path::extension of a bare file name: the portion after the last dot,
provided the portion before that dot is nonempty. -/
def fileExt (name : String) : Option String :=
  match dotParts name with
  | [] => none
  | [_] => none
  | ["", _] => none
  | parts => some (parts.getLastD "")

/-- Path::file_stem of a bare file name: the portion before the extension. -/
def fileStem (name : String) : String :=
  match dotParts name with
  | [] => name
  | [_] => name
  | ["", _] => name
  | parts => joinWith "." parts.dropLast

/-- Path::extension of a full path. -/
def pathExt (p : String) : Option String := fileExt (fileNameOf p)

/-- PathBuf::set_extension with a nonempty extension: the file name becomes
stem dot extension. -/
def setPathExt (p e : String) : String :=
  setFileName p (fileStem (fileNameOf p) ++ "." ++ e)

/-- str::ends_with: suffix test on the underlying characters. -/
def strEndsWith (s t : String) : Bool := t.data.isSuffixOf s.data

/-! ## Association lists

HashMap<String, V> is modelled as an association list whose keys are kept
distinct; HashMap::insert replaces the value at an existing key. -/

/-- HashMap::insert semantics on an association list: replace the entry at
the key when present, otherwise append the binding. -/
def upsert {α : Type} : List (String × α) → String → α → List (String × α)
  | [], k, v => [(k, v)]
  | (k', v') :: rest, k, v =>
      if k' = k then (k, v) :: rest else (k', v') :: upsert rest k v

/-- HashMap::get semantics on an association list. -/
def lookupAssoc {α : Type} (m : List (String × α)) (k : String) : Option α :=
  (m.find? (fun e => e.1 == k)).map (fun e => e.2)

theorem find?_upsert {α : Type} (m : List (String × α)) (k : String) (v : α) :
    (upsert m k v).find? (fun e => e.1 == k) = some (k, v) := by
  induction m with
  | nil => simp [upsert, List.find?]
  | cons hd tl ih =>
    by_cases h : hd.1 = k
    · cases hd with
      | mk k' v' =>
        simp only at h
        simp [upsert, h, List.find?]
    · cases hd with
      | mk k' v' =>
        simp only at h
        simp [upsert, h, List.find?, ih]

theorem lookupAssoc_upsert {α : Type} (m : List (String × α)) (k : String) (v : α) :
    lookupAssoc (upsert m k v) k = some v := by
  simp [lookupAssoc, find?_upsert]

theorem upsert_cons_eq {α : Type} (k' : String) (v' : α) (tl : List (String × α))
    (k : String) (v : α) (h : k' = k) :
    upsert ((k', v') :: tl) k v = (k, v) :: tl := by
  simp [upsert, h]

theorem upsert_cons_ne {α : Type} (k' : String) (v' : α) (tl : List (String × α))
    (k : String) (v : α) (h : k' ≠ k) :
    upsert ((k', v') :: tl) k v = (k', v') :: upsert tl k v := by
  simp [upsert, h]

theorem mem_keys_upsert {α : Type} {m : List (String × α)} {k a : String} {v : α}
    (h : a ∈ (upsert m k v).map Prod.fst) : a ∈ m.map Prod.fst ∨ a = k := by
  induction m with
  | nil =>
    simp only [upsert, List.map_cons, List.map_nil, List.mem_singleton] at h
    exact Or.inr h
  | cons hd tl ih =>
    obtain ⟨k', v'⟩ := hd
    by_cases hk : k' = k
    · rw [upsert_cons_eq k' v' tl k v hk, List.map_cons, List.mem_cons] at h
      rcases h with h | h
      · exact Or.inr h
      · exact Or.inl (by rw [List.map_cons, List.mem_cons]; exact Or.inr h)
    · rw [upsert_cons_ne k' v' tl k v hk, List.map_cons, List.mem_cons] at h
      rcases h with h | h
      · exact Or.inl (by rw [List.map_cons, List.mem_cons]; exact Or.inl h)
      · rcases ih h with h2 | h2
        · exact Or.inl (by rw [List.map_cons, List.mem_cons]; exact Or.inr h2)
        · exact Or.inr h2

theorem nodup_keys_upsert {α : Type} {m : List (String × α)} (k : String) (v : α)
    (h : (m.map Prod.fst).Nodup) : ((upsert m k v).map Prod.fst).Nodup := by
  induction m with
  | nil => simp [upsert]
  | cons hd tl ih =>
    obtain ⟨k', v'⟩ := hd
    rw [List.map_cons, List.nodup_cons] at h
    by_cases hk : k' = k
    · subst hk
      rw [upsert_cons_eq k' v' tl k' v rfl, List.map_cons, List.nodup_cons]
      exact h
    · rw [upsert_cons_ne k' v' tl k v hk, List.map_cons, List.nodup_cons]
      refine ⟨fun hmem => ?_, ih h.2⟩
      rcases mem_keys_upsert hmem with h2 | h2
      · exact h.1 h2
      · exact hk h2

theorem count_keys_upsert {α : Type} {m : List (String × α)} (k : String) (v : α)
    (h : (m.map Prod.fst).Nodup) :
    ((upsert m k v).map Prod.fst).count k = 1 := by
  induction m with
  | nil => simp [upsert]
  | cons hd tl ih =>
    obtain ⟨k', v'⟩ := hd
    rw [List.map_cons, List.nodup_cons] at h
    by_cases hk : k' = k
    · subst hk
      rw [upsert_cons_eq k' v' tl k' v rfl, List.map_cons, List.count_cons_self,
        List.count_eq_zero.mpr h.1]
    · rw [upsert_cons_ne k' v' tl k v hk, List.map_cons,
        List.count_cons_of_ne (fun he => hk he.symm)]
      exact ih h.2

/-! ## JSON values

The serde_json::Value type, restricted to the shapes the program touches
(strings, arrays, objects, null). Indexing a missing key or a non-object
yields null, as serde_json::Value::index does. -/

inductive Json where
  | null : Json
  | str : String → Json
  | arr : List Json → Json
  | obj : List (String × Json) → Json
deriving Repr

/-- Value::index on an object key: the value at the key, null when absent or
when the value is not an object. -/
def Json.index : Json → String → Json
  | .obj fields, k =>
    match fields.find? (fun f => f.1 == k) with
    | some f => f.2
    | none => .null
  | _, _ => .null

/-- Value::as_str. -/
def Json.asStr : Json → Option String
  | .str s => some s
  | _ => none

/-- Value::as_array. -/
def Json.asArr : Json → Option (List Json)
  | .arr xs => some xs
  | _ => none

/-! ## The install ledger (PackageState, src/main.rs lines 23-81) -/

/-- The ledger entry (struct InstalledPackage, main.rs lines 23-28). -/
structure InstalledPackage where
  version : String
  install_path : String
  executable_path : Option String
deriving Repr, DecidableEq

/-- The ledger (struct PackageState, main.rs lines 30-33); the HashMap is an
association list with distinct keys. -/
structure PackageState where
  packages : List (String × InstalledPackage)
deriving Repr, DecidableEq

/-- PackageState::add_package (main.rs lines 53-68): HashMap::insert, an
upsert, total on every input. -/
def PackageState.add_package (s : PackageState) (name version : String)
    (install_path : String) (executable_path : Option String) : PackageState :=
  ⟨upsert s.packages name ⟨version, install_path, executable_path⟩⟩

/-- PackageState::get_package (main.rs lines 74-76). -/
def PackageState.get_package (s : PackageState) (name : String) :
    Option InstalledPackage :=
  lookupAssoc s.packages name

/-- PackageState::remove_package (main.rs lines 70-72), returning the new
ledger and the removed entry. -/
def PackageState.remove_package (s : PackageState) (name : String) :
    PackageState × Option InstalledPackage :=
  (⟨s.packages.filter (fun e => e.1 != name)⟩, lookupAssoc s.packages name)

/-! ## Serialization of the ledger

serde derives Serialize and Deserialize for PackageState; the JSON document
is an object with a packages field mapping each name to an object with
version, install_path and executable_path fields, PathBuf rendered as a
string and the Option as null or a string. The string printing and parsing
performed by serde_json::to_string_pretty and from_str is assumed faithful,
so the persisted document is modelled at the JSON value level. -/

def encodeOptPath : Option String → Json
  | none => .null
  | some p => .str p

def encodeEntry (p : InstalledPackage) : Json :=
  .obj [("version", .str p.version), ("install_path", .str p.install_path),
        ("executable_path", encodeOptPath p.executable_path)]

def encodeState (s : PackageState) : Json :=
  .obj [("packages", .obj (s.packages.map (fun e => (e.1, encodeEntry e.2))))]

def decodeOptPath : Json → Option (Option String)
  | .null => some none
  | .str s => some (some s)
  | _ => none

def decodeEntry (j : Json) : Option InstalledPackage :=
  match (j.index "version").asStr, (j.index "install_path").asStr,
      decodeOptPath (j.index "executable_path") with
  | some v, some ip, some ep => some ⟨v, ip, ep⟩
  | _, _, _ => none

def decodeEntries : List (String × Json) → Option (List (String × InstalledPackage))
  | [] => some []
  | (k, j) :: rest =>
    match decodeEntry j, decodeEntries rest with
    | some e, some es => some ((k, e) :: es)
    | _, _ => none

def decodeState (j : Json) : Option PackageState :=
  match j.index "packages" with
  | .obj fields => (decodeEntries fields).map PackageState.mk
  | _ => none

/-! ## Persistence (PackageState::load and save, main.rs lines 35-51)

The data directory filesystem is an association list from file path to the
JSON document stored there. -/

def Fs : Type := List (String × Json)

def fsRead (fs : Fs) (path : String) : Option Json :=
  lookupAssoc fs path

/-- PackageState::save (main.rs lines 46-51): serialize the full ledger and
overwrite data_dir/package_state.json. -/
def PackageState.save (s : PackageState) (fs : Fs) (data_dir : String) : Fs :=
  upsert fs (pathJoin data_dir "package_state.json") (encodeState s)

/-- PackageState::load (main.rs lines 36-44): read and parse the persisted
document when the file exists, otherwise return the empty default ledger. -/
def PackageState.load (fs : Fs) (data_dir : String) : Except String PackageState :=
  match fsRead fs (pathJoin data_dir "package_state.json") with
  | some doc =>
    match decodeState doc with
    | some s => .ok s
    | none => .error "invalid package_state.json"
  | none => .ok ⟨[]⟩

theorem decodeEntry_encodeEntry (e : InstalledPackage) :
    decodeEntry (encodeEntry e) = some e := by
  obtain ⟨v, ip, ep⟩ := e
  cases ep <;> rfl

theorem decodeEntries_encode (l : List (String × InstalledPackage)) :
    decodeEntries (l.map (fun e => (e.1, encodeEntry e.2))) = some l := by
  induction l with
  | nil => rfl
  | cons hd tl ih =>
    obtain ⟨k, e⟩ := hd
    simp only [List.map_cons, decodeEntries, decodeEntry_encodeEntry, ih]

theorem decodeState_encodeState (s : PackageState) :
    decodeState (encodeState s) = some s := by
  obtain ⟨pkgs⟩ := s
  simp only [encodeState, decodeState, Json.index, List.find?]
  simp only [beq_self_eq_true, decodeEntries_encode]
  rfl

/-! ## Errors

The program reports errors through anyhow; each bail or ok_or_else site in
the embedded code is mapped to one constructor carrying the data that the
formatted message carries. -/

inductive GripError where
  /-- No releases found for package (main.rs line 133). -/
  | noReleases (package_name : String) : GripError
  /-- Version not found (main.rs line 140). -/
  | versionNotFound (v : String) : GripError
  /-- No assets found in release (main.rs line 160). -/
  | noAssetsInRelease : GripError
  /-- Asset not found (main.rs line 166). -/
  | assetNotFound (a : String) : GripError
  /-- Invalid download URL (main.rs line 184). -/
  | invalidDownloadUrl : GripError
  /-- Invalid asset name (main.rs line 188). -/
  | invalidAssetName : GripError
  /-- The interactive selection failed (dialoguer interact error). -/
  | interactError : GripError
  /-- A filesystem operation failed on the given path. -/
  | filesystemError (p : String) : GripError
  /-- Registry already exists (main.rs line 251). -/
  | registryAlreadyExists (name : String) : GripError
  /-- Registry not found (main.rs line 272). -/
  | registryNotFound (name : String) : GripError
  /-- Cannot remove default registry (main.rs line 265). -/
  | cannotRemoveDefaultRegistry : GripError
deriving Repr, DecidableEq

/-! ## Package metadata and the world state -/

/-- The package metadata returned by RegistryManager::find_package: the
fields of package.info that Grip::install reads. -/
structure PackageInfo where
  repository : String
  executable_name : Option String
deriving Repr, DecidableEq

/-- The state Grip::install reads and mutates: the data directory path, the
JSON documents on disk, the regular files and directories on disk, the
persisted executable search path, and the in-memory ledger. -/
structure World where
  data_dir : String
  jsonFs : Fs
  files : List String
  dirs : List String
  pathEntries : List String
  package_state : PackageState

/-- Append an element unless already present; downloads and extraction
overwrite files of the same name rather than duplicating them. -/
def addOnce (l : List String) (x : String) : List String :=
  if x ∈ l then l else l ++ [x]

/-- The contents the downloaded archive would extract to: its entry names,
and whether the archive is malformed so that extraction fails. -/
structure ArchiveContents where
  entries : List String
  malformed : Bool
deriving Repr, DecidableEq

/-- Modelled from the spec: RegistryManager::download_asset (module registry
is not in the provided sources) creates the target directory and parents if
absent, streams the asset body to target_dir/filename overwriting any
existing file of that name, and returns that path. -/
def download_asset (w : World) (filename target_dir : String) : World × String :=
  let p := pathJoin target_dir filename
  ({ w with dirs := addOnce w.dirs target_dir, files := addOnce w.files p }, p)

/-- Modelled from the spec: utils::extract_archive (module utils is not in
the provided sources) extracts all entries of the archive into the target
directory, or fails on a malformed archive. Its call site in Grip::install
(main.rs line 205) passes only the archive path and the target directory,
so extraction cannot consult the executable_name of the package. -/
def extract_archive (archive : ArchiveContents) (target_dir : String) :
    Except String (List String) :=
  if archive.malformed then .error "malformed archive"
  else .ok (archive.entries.map (pathJoin target_dir))

/-- Modelled from the spec: path::add_to_path (module path is not in the
provided sources) idempotently appends the directory to the persisted
executable search path. -/
def add_to_path (entries : List String) (dir : String) : List String :=
  if dir ∈ entries then entries else entries ++ [dir]

/-- std::fs::remove_file: fails when the file is absent. -/
def remove_file (files : List String) (p : String) :
    Except GripError (List String) :=
  if p ∈ files then .ok (files.erase p) else .error (.filesystemError p)

/-- std::fs::rename: fails when the source is absent; an existing
destination is overwritten. -/
def rename_file (files : List String) (src dst : String) :
    Except GripError (List String) :=
  if src ∈ files then .ok (addOnce (files.erase src) dst)
  else .error (.filesystemError src)

/-! ## Release and asset selection (main.rs lines 136-180) -/

/-- The tag the code reads from a release for matching an explicit version
request: release tag_name as a string, defaulting to the empty string
(main.rs line 139). -/
def tagOrEmpty (r : Json) : String := ((r.index "tag_name").asStr).getD ""

/-- The tag the code records and installs under: release tag_name as a
string, defaulting to unknown (main.rs lines 195 and 229-231). -/
def tagOrUnknown (r : Json) : String := ((r.index "tag_name").asStr).getD "unknown"

/-- The asset name the code reads for matching an explicit asset request
(main.rs line 165). -/
def nameOrEmpty (a : Json) : String := ((a.index "name").asStr).getD ""

/-- Release selection (main.rs lines 136-156). With an explicit version the
first release whose tag matches exactly is chosen, else the request fails;
without one, dialoguer presents the tag strings with index 0 as the default
and the chosen index selects from the full release list. The choice argument
is the index of the user selection, 0 when the default is accepted. -/
def selectRelease (releases : List Json) (version : Option String)
    (choice : Nat) : Except GripError Json :=
  match version with
  | some v =>
    match releases.find? (fun r => tagOrEmpty r == v) with
    | some r => .ok r
    | none => .error (.versionNotFound v)
  | none =>
    let versions := releases.filterMap (fun r => (r.index "tag_name").asStr)
    if choice < versions.length then .ok (releases.getD choice .null)
    else .error .interactError

/-- Asset selection (main.rs lines 162-180), the same pattern over the asset
names of the chosen release. -/
def selectAsset (assets : List Json) (asset : Option String)
    (choice : Nat) : Except GripError Json :=
  match asset with
  | some a =>
    match assets.find? (fun x => nameOrEmpty x == a) with
    | some x => .ok x
    | none => .error (.assetNotFound a)
  | none =>
    let names := assets.filterMap (fun x => (x.index "name").asStr)
    if choice < names.length then .ok (assets.getD choice .null)
    else .error .interactError

/-! ## The install pipeline (Grip::install, main.rs lines 108-241) -/

/-- The archive suffix test (main.rs line 202). -/
def isArchiveName (filename : String) : Bool :=
  strEndsWith filename ".zip" || strEndsWith filename ".tar.gz" ||
    strEndsWith filename ".tgz"

/-- The name the raw download is renamed to when executable_name is set
(main.rs lines 209-215): the file name is replaced by executable_name, then
the extension of the downloaded file, if any, is set on the result. -/
def renameTargetFor (downloaded_file exe : String) : String :=
  let base := setFileName downloaded_file exe
  match pathExt downloaded_file with
  | some ext => setPathExt base ext
  | none => base

/-- The per-install target directory data_dir/packages/name/tag
(main.rs lines 190-195). -/
def targetDirFor (w : World) (package_name : String) (release : Json) : String :=
  pathJoin (pathJoin (pathJoin w.data_dir "packages") package_name)
    (tagOrUnknown release)

/-- The outcome of a pipeline run; both outcomes carry the final world so
that side effects performed before a failure stay observable. -/
inductive InstallOutcome where
  | ok (w : World) : InstallOutcome
  | err (e : GripError) (w : World) : InstallOutcome

def InstallOutcome.isOk : InstallOutcome → Bool
  | .ok _ => true
  | .err _ _ => false

def outcomeWorld : InstallOutcome → World
  | .ok w => w
  | .err _ w => w

/-- The tail of the pipeline (main.rs lines 219-240): extend the search path
with the target directory, record the ledger entry with executable_path
target_dir joined with executable_name when the latter is set, and save the
ledger to disk. -/
def finishInstall (w : World) (package_name : String) (package : PackageInfo)
    (tag target_dir : String) : InstallOutcome :=
  let executable_path := package.executable_name.map (pathJoin target_dir)
  let st := w.package_state.add_package package_name tag target_dir executable_path
  .ok { w with pathEntries := add_to_path w.pathEntries target_dir,
               package_state := st,
               jsonFs := st.save w.jsonFs w.data_dir }

/-- The extraction call site (main.rs line 205): the result of
utils::extract_archive is discarded there, so on an extraction error the
pipeline continues with the world unchanged, and on success the extracted
files appear in the target directory. -/
def afterExtract (w1 : World) (target_dir : String)
    (archive : ArchiveContents) : World :=
  match extract_archive archive target_dir with
  | .ok produced => { w1 with files := produced.foldl addOnce w1.files }
  | .error _ => w1

/-- The branch of Grip::install after the download (main.rs lines 202-240):
archive assets are extracted (outcome discarded) and the downloaded archive
removed; raw assets are renamed to the executable name when one is set;
then the pipeline finishes through finishInstall. -/
def afterDownload (w1 : World) (package_name : String) (package : PackageInfo)
    (release : Json) (filename downloaded_file target_dir : String)
    (archive : ArchiveContents) : InstallOutcome :=
  if isArchiveName filename then
    match remove_file (afterExtract w1 target_dir archive).files downloaded_file with
    | .error e => .err e (afterExtract w1 target_dir archive)
    | .ok files2 =>
      finishInstall { afterExtract w1 target_dir archive with files := files2 }
        package_name package (tagOrUnknown release) target_dir
  else
    match package.executable_name with
    | some exe =>
      match rename_file w1.files downloaded_file
          (renameTargetFor downloaded_file exe) with
      | .error e => .err e w1
      | .ok files2 =>
        finishInstall { w1 with files := files2 } package_name package
          (tagOrUnknown release) target_dir
    | none =>
      finishInstall w1 package_name package (tagOrUnknown release) target_dir

/-- Grip::install (main.rs lines 108-241). The registry lookup results are
passed in as package and releases; relChoice and assetChoice are the indices
an interactive selection would return, 0 when the default is accepted;
archive describes the contents of the downloaded asset when it is an
archive. -/
def install (w : World) (package_name : String) (version asset : Option String)
    (package : PackageInfo) (releases : List Json) (relChoice assetChoice : Nat)
    (archive : ArchiveContents) : InstallOutcome :=
  if releases.isEmpty then .err (.noReleases package_name) w else
  match selectRelease releases version relChoice with
  | .error e => .err e w
  | .ok release =>
    match (release.index "assets").asArr with
    | none => .err .noAssetsInRelease w
    | some assets =>
      match selectAsset assets asset assetChoice with
      | .error e => .err e w
      | .ok asset_obj =>
        match (asset_obj.index "browser_download_url").asStr with
        | none => .err .invalidDownloadUrl w
        | some _url =>
          match (asset_obj.index "name").asStr with
          | none => .err .invalidAssetName w
          | some filename =>
            let target_dir := targetDirFor w package_name release
            afterDownload (download_asset w filename target_dir).1 package_name
              package release filename (download_asset w filename target_dir).2
              target_dir archive

/-! ## Registry administrative commands (main.rs lines 243-302) -/

/-- A configured registry (struct config::Registry as used by main.rs). -/
structure Registry where
  name : String
  url : String
  priority : Int
deriving Repr, DecidableEq

/-- The configuration holding the registry list. -/
structure Config where
  registries : List Registry
deriving Repr, DecidableEq

/-- RegistryCommands::Add (main.rs lines 245-262): bail when the name is
already configured, else push the registry with the supplied priority,
defaulting to 0. -/
def handleRegistryAdd (c : Config) (name url : String) (priority : Option Int) :
    Config × Option GripError :=
  if c.registries.any (fun r => r.name == name) then
    (c, some (.registryAlreadyExists name))
  else
    ({ registries := c.registries ++ [⟨name, url, priority.getD 0⟩] }, none)

/-- RegistryCommands::Remove (main.rs lines 263-287): bail on the name
default before anything else; retain all registries of a different name and
bail when nothing was removed; on success save and cascade-delete the cached
registry directory data_dir/registries/name. -/
def handleRegistryRemove (c : Config) (dirs : List String) (data_dir name : String) :
    Config × List String × Option GripError :=
  if name == "default" then (c, dirs, some .cannotRemoveDefaultRegistry)
  else
    let retained := c.registries.filter (fun r => r.name != name)
    if retained.length == c.registries.length then
      ({ registries := retained }, dirs, some (.registryNotFound name))
    else
      let registry_path := pathJoin (pathJoin data_dir "registries") name
      ({ registries := retained }, dirs.erase registry_path, none)

theorem afterExtract_package_state (w1 : World) (target_dir : String)
    (archive : ArchiveContents) :
    (afterExtract w1 target_dir archive).package_state = w1.package_state := by
  unfold afterExtract
  split <;> rfl

theorem afterDownload_ok_ledger {w1 : World} {package_name : String}
    {package : PackageInfo} {release : Json}
    {filename downloaded_file target_dir : String} {archive : ArchiveContents}
    {w' : World}
    (h : afterDownload w1 package_name package release filename downloaded_file
      target_dir archive = .ok w') :
    w'.package_state = w1.package_state.add_package package_name
      (tagOrUnknown release) target_dir
      (package.executable_name.map (pathJoin target_dir)) := by
  unfold afterDownload at h
  split at h
  · split at h
    · exact InstallOutcome.noConfusion h
    next files2 hrm =>
      unfold finishInstall at h
      injection h with h
      subst h
      simp only [afterExtract_package_state]
  · split at h
    · split at h
      · exact InstallOutcome.noConfusion h
      next files2 hrn =>
        unfold finishInstall at h
        injection h with h
        subst h
        rfl
    · unfold finishInstall at h
      injection h with h
      subst h
      rfl

theorem install_ok_ledger {w : World} {package_name : String}
    {version asset : Option String} {package : PackageInfo} {releases : List Json}
    {relChoice assetChoice : Nat} {archive : ArchiveContents} {w' : World}
    (h : install w package_name version asset package releases relChoice
      assetChoice archive = .ok w') :
    ∃ release, selectRelease releases version relChoice = .ok release ∧
      w'.package_state = w.package_state.add_package package_name
        (tagOrUnknown release) (targetDirFor w package_name release)
        (package.executable_name.map (pathJoin (targetDirFor w package_name release))) := by
  unfold install at h
  split at h
  · exact InstallOutcome.noConfusion h
  split at h
  · exact InstallOutcome.noConfusion h
  next release hrel =>
    split at h
    · exact InstallOutcome.noConfusion h
    next assets hassets =>
      split at h
      · exact InstallOutcome.noConfusion h
      next asset_obj hasset =>
        split at h
        · exact InstallOutcome.noConfusion h
        next url hurl =>
          split at h
          · exact InstallOutcome.noConfusion h
          next filename hname =>
            refine ⟨release, hrel, ?_⟩
            have h2 := afterDownload_ok_ledger h
            exact h2

theorem mem_addOnce_self (l : List String) (x : String) : x ∈ addOnce l x := by
  unfold addOnce
  split
  · assumption
  · simp

theorem mem_addOnce_of_mem {l : List String} {x : String} (y : String)
    (h : x ∈ l) : x ∈ addOnce l y := by
  unfold addOnce
  split
  · exact h
  · simp [h]

theorem mem_foldl_addOnce {x : String} (ys : List String) (l : List String)
    (h : x ∈ l) : x ∈ ys.foldl addOnce l := by
  induction ys generalizing l with
  | nil => exact h
  | cons hd tl ih => exact ih (addOnce l hd) (mem_addOnce_of_mem hd h)

theorem mem_afterExtract_files {x : String} (w1 : World) (target_dir : String)
    (archive : ArchiveContents) (h : x ∈ w1.files) :
    x ∈ (afterExtract w1 target_dir archive).files := by
  unfold afterExtract
  split
  · exact mem_foldl_addOnce _ _ h
  · exact h

theorem isOk_exists {o : InstallOutcome} (h : o.isOk = true) : ∃ w, o = .ok w := by
  cases o with
  | ok w => exact ⟨w, rfl⟩
  | err e w => simp [InstallOutcome.isOk] at h

/-- Every branch of the post-download stage succeeds as long as the
downloaded file is on disk: extraction failures are discarded, and the
remove and rename operations find their source file. -/
theorem afterDownload_always_ok (w1 : World) (package_name : String)
    (package : PackageInfo) (release : Json)
    (filename downloaded_file target_dir : String) (archive : ArchiveContents)
    (hmem : downloaded_file ∈ w1.files) :
    (afterDownload w1 package_name package release filename downloaded_file
      target_dir archive).isOk = true := by
  unfold afterDownload
  split
  · have hm2 : downloaded_file ∈ (afterExtract w1 target_dir archive).files :=
      mem_afterExtract_files w1 target_dir archive hmem
    rw [remove_file, if_pos hm2]
    rfl
  · split
    · rw [rename_file, if_pos hmem]
      rfl
    · rfl

theorem find?_first_match {α : Type} (p : α → Bool) (pre post : List α) (a : α)
    (hpre : ∀ x ∈ pre, p x = false) (ha : p a = true) :
    (pre ++ a :: post).find? p = some a := by
  induction pre with
  | nil => simp [List.find?_cons_of_pos, ha]
  | cons hd tl ih =>
    rw [List.cons_append, List.find?_cons_of_neg]
    · exact ih (fun x hx => hpre x (List.mem_cons_of_mem hd hx))
    · simp [hpre hd (List.mem_cons_self hd tl)]

/-! ## Claim C1 -/

/-- C1: from any ledger whose keys are distinct, two successive successful
installs of the same package name leave exactly one ledger entry for that
name, and that entry carries the version tag, install path and executable
path determined by the most recent install. add_package is a total upsert,
so a re-install never fails at the recording stage. -/
theorem install_twice_single_entry
    {w1 w2 w3 : World} {name : String}
    {vo1 vo2 ao1 ao2 : Option String} {pkg1 pkg2 : PackageInfo}
    {rels1 rels2 : List Json} {rc1 rc2 ac1 ac2 : Nat}
    {arc1 arc2 : ArchiveContents}
    (hnodup : (w1.package_state.packages.map Prod.fst).Nodup)
    (h1 : install w1 name vo1 ao1 pkg1 rels1 rc1 ac1 arc1 = .ok w2)
    (h2 : install w2 name vo2 ao2 pkg2 rels2 rc2 ac2 arc2 = .ok w3) :
    ((w3.package_state.packages.map Prod.fst).count name = 1) ∧
    ∃ release2, selectRelease rels2 vo2 rc2 = .ok release2 ∧
      w3.package_state.get_package name =
        some ⟨tagOrUnknown release2, targetDirFor w2 name release2,
          pkg2.executable_name.map (pathJoin (targetDirFor w2 name release2))⟩ := by
  obtain ⟨r1, hsel1, hps2⟩ := install_ok_ledger h1
  obtain ⟨r2, hsel2, hps3⟩ := install_ok_ledger h2
  constructor
  · rw [hps3, hps2]
    exact count_keys_upsert _ _ (nodup_keys_upsert _ _ hnodup)
  · refine ⟨r2, hsel2, ?_⟩
    rw [hps3]
    exact lookupAssoc_upsert _ _ _

def c1World : World :=
  { data_dir := "data", jsonFs := [], files := [], dirs := [], pathEntries := [],
    package_state := ⟨[("bar", ⟨"0.1", "data/packages/bar/0.1", none⟩)]⟩ }

def c1Pkg : PackageInfo := ⟨"owner/foo", none⟩

def c1Releases1 : List Json :=
  [Json.obj [("tag_name", Json.str "v1.0"),
    ("assets", Json.arr [Json.obj [("name", Json.str "foo-bin"),
      ("browser_download_url", Json.str "u1")]])]]

def c1Releases2 : List Json :=
  [Json.obj [("tag_name", Json.str "v2.0"),
    ("assets", Json.arr [Json.obj [("name", Json.str "foo-bin"),
      ("browser_download_url", Json.str "u2")]])]]

def c1w2 : World :=
  outcomeWorld (install c1World "foo" (some "v1.0") (some "foo-bin") c1Pkg
    c1Releases1 0 0 ⟨[], false⟩)

def c1w3 : World :=
  outcomeWorld (install c1w2 "foo" (some "v2.0") (some "foo-bin") c1Pkg
    c1Releases2 0 0 ⟨[], false⟩)

/-- C1 witness: a ledger holding bar receives two installs of foo, v1.0 then
v2.0; the final ledger holds exactly one foo entry, carrying the v2.0
fields. -/
theorem install_twice_single_entry_witness :
    ((c1w3.package_state.packages.map Prod.fst).count "foo" = 1) ∧
    ∃ release2, selectRelease c1Releases2 (some "v2.0") 0 = .ok release2 ∧
      c1w3.package_state.get_package "foo" =
        some ⟨tagOrUnknown release2, targetDirFor c1w2 "foo" release2,
          c1Pkg.executable_name.map (pathJoin (targetDirFor c1w2 "foo" release2))⟩ :=
  @install_twice_single_entry c1World c1w2 c1w3 "foo" (some "v1.0") (some "v2.0")
    (some "foo-bin") (some "foo-bin") c1Pkg c1Pkg c1Releases1 c1Releases2
    0 0 0 0 ⟨[], false⟩ ⟨[], false⟩ (by decide) rfl rfl

/-! ## Claim C2 -/

/-- C2: saving the ledger with PackageState::save into a data directory and
loading it back with PackageState::load succeeds and reproduces the ledger
exactly, hence the identical set of (name, version, install_path,
executable_path) tuples. -/
theorem save_load_round_trip (s : PackageState) (fs : Fs) (data_dir : String) :
    PackageState.load (s.save fs data_dir) data_dir = .ok s := by
  simp only [PackageState.load, PackageState.save, fsRead, lookupAssoc_upsert,
    decodeState_encodeState]

/-! ## Claim C3 -/

/-- C3: with an explicit version string, release selection matches tags
exactly and case-sensitively: when no tag of the list equals the request it
fails with versionNotFound, and when the matching release is unique it is
returned (the embedding returns the first match, which is the unique match
under the uniqueness premise, expressed here by the position of the match
in the list). Without a version, the tag strings are presented in returned
order with index 0 pre-selected as the default, and accepting the default
returns the first release of the list. -/
theorem version_selection_exact (releases pre post rest : List Json)
    (r0 r : Json) (v : String) (c : Nat)
    (htags : ∀ x ∈ releases, ((Json.index x "tag_name").asStr).isSome = true) :
    ((∀ x ∈ releases, tagOrEmpty x ≠ v) →
      selectRelease releases (some v) c = .error (.versionNotFound v)) ∧
    (releases = pre ++ r0 :: post → (∀ x ∈ pre, tagOrEmpty x ≠ v) →
      tagOrEmpty r0 = v → selectRelease releases (some v) c = .ok r0) ∧
    (releases = r :: rest →
      0 < (releases.filterMap (fun x => (Json.index x "tag_name").asStr)).length →
      selectRelease releases none 0 = .ok r) := by
  refine ⟨?_, ?_, ?_⟩
  · intro hno
    have hfind : releases.find? (fun x => tagOrEmpty x == v) = none :=
      List.find?_eq_none.mpr (fun x hx => by simpa using hno x hx)
    simp [selectRelease, hfind]
  · intro hre hpre hr0
    have hfind : releases.find? (fun x => tagOrEmpty x == v) = some r0 := by
      rw [hre]
      exact find?_first_match _ pre post r0
        (fun x hx => by simpa using hpre x hx) (by simpa using hr0)
    simp [selectRelease, hfind]
  · intro hre hlen
    subst hre
    simp only [selectRelease]
    rw [if_pos hlen]
    rfl

def c3rel1 : Json := Json.obj [("tag_name", Json.str "v2.0")]

def c3rel2 : Json := Json.obj [("tag_name", Json.str "v1.0")]

/-- C3 witness: with releases tagged v2.0 then v1.0, requesting v1.0
explicitly yields the second record, and omitting the version and accepting
the default yields the first record. -/
theorem version_selection_exact_witness :
    ((∀ x ∈ [c3rel1, c3rel2], tagOrEmpty x ≠ "v1.0") →
      selectRelease [c3rel1, c3rel2] (some "v1.0") 0 =
        .error (.versionNotFound "v1.0")) ∧
    ([c3rel1, c3rel2] = [c3rel1] ++ c3rel2 :: [] →
      (∀ x ∈ [c3rel1], tagOrEmpty x ≠ "v1.0") → tagOrEmpty c3rel2 = "v1.0" →
      selectRelease [c3rel1, c3rel2] (some "v1.0") 0 = .ok c3rel2) ∧
    ([c3rel1, c3rel2] = c3rel1 :: [c3rel2] →
      0 < ([c3rel1, c3rel2].filterMap
        (fun x => (Json.index x "tag_name").asStr)).length →
      selectRelease [c3rel1, c3rel2] none 0 = .ok c3rel1) :=
  version_selection_exact [c3rel1, c3rel2] [c3rel1] [] [c3rel2] c3rel2 c3rel1
    "v1.0" 0 (by decide)

/-! ## Claim C4 -/

/-- C4: when the explicitly requested asset name matches no asset of the
chosen release exactly, install fails with assetNotFound and returns the
world unchanged: no ledger entry, no target directory, no downloaded file
and no search-path mutation. -/
theorem install_unmatched_asset_fails
    (w : World) (package_name : String) (version : Option String) (aname : String)
    (package : PackageInfo) (releases : List Json) (relChoice assetChoice : Nat)
    (archive : ArchiveContents) (release : Json) (assets : List Json)
    (hne : releases.isEmpty = false)
    (hsel : selectRelease releases version relChoice = .ok release)
    (hassets : (Json.index release "assets").asArr = some assets)
    (hnomatch : ∀ x ∈ assets, nameOrEmpty x ≠ aname) :
    install w package_name version (some aname) package releases relChoice
      assetChoice archive = .err (.assetNotFound aname) w := by
  have hfind : assets.find? (fun x => nameOrEmpty x == aname) = none :=
    List.find?_eq_none.mpr (fun x hx => by simpa using hnomatch x hx)
  simp [install, hne, hsel, hassets, selectAsset, hfind]

def c4Release : Json :=
  Json.obj [("tag_name", Json.str "v1.0"),
    ("assets", Json.arr [Json.obj [("name", Json.str "foo-linux.tar.gz"),
      ("browser_download_url", Json.str "u")]])]

def c4World : World :=
  { data_dir := "data", jsonFs := [], files := [], dirs := [], pathEntries := [],
    package_state := ⟨[]⟩ }

/-- C4 witness: requesting the absent asset name foo-macos.zip fails with
assetNotFound and leaves the world untouched. -/
theorem install_unmatched_asset_fails_witness :
    install c4World "foo" (some "v1.0") (some "foo-macos.zip") ⟨"owner/foo", none⟩
      [c4Release] 0 0 ⟨[], false⟩ = .err (.assetNotFound "foo-macos.zip") c4World :=
  install_unmatched_asset_fails c4World "foo" (some "v1.0") "foo-macos.zip"
    ⟨"owner/foo", none⟩ [c4Release] 0 0 ⟨[], false⟩ c4Release
    [Json.obj [("name", Json.str "foo-linux.tar.gz"),
      ("browser_download_url", Json.str "u")]]
    rfl rfl rfl (by decide)

/-! ## Claim C5 -/

def c5World : World :=
  { data_dir := "data", jsonFs := [], files := [], dirs := [], pathEntries := [],
    package_state := ⟨[]⟩ }

def c5Pkg : PackageInfo := ⟨"owner/foo", some "foo"⟩

def c5Release : Json :=
  Json.obj [("tag_name", Json.str "1.2.0"),
    ("assets", Json.arr [Json.obj [("name", Json.str "foo-linux.tar.gz"),
      ("browser_download_url", Json.str "https://x/foo-linux.tar.gz")]])]

def c5Archive : ArchiveContents := ⟨["foo-linux"], false⟩

def c5Result : InstallOutcome :=
  install c5World "foo" (some "1.2.0") (some "foo-linux.tar.gz") c5Pkg
    [c5Release] 0 0 c5Archive

/-- C5 counterexample: installing the archive asset foo-linux.tar.gz with
executable_name foo succeeds and extracts an artifact that keeps its own
name foo-linux, but no locate or rename step runs in the archive branch
(main.rs lines 202-207, and extract_archive receives no executable name),
so the recorded executable_path data/packages/foo/1.2.0/foo names no file
on disk. -/
theorem archive_no_rename_cex :
    c5Result.isOk = true ∧
    (outcomeWorld c5Result).package_state.get_package "foo" =
      some ⟨"1.2.0", "data/packages/foo/1.2.0",
        some "data/packages/foo/1.2.0/foo"⟩ ∧
    "data/packages/foo/1.2.0/foo" ∉ (outcomeWorld c5Result).files ∧
    "data/packages/foo/1.2.0/foo-linux" ∈ (outcomeWorld c5Result).files := by
  refine ⟨rfl, rfl, ?_, ?_⟩ <;> decide

/-- C5 amended: for an archive-suffixed asset, install extracts all archive
entries under their own names into the target directory, deletes the
original downloaded archive file, extends the search path, and when
executable_name is set records the ledger entry with executable_path equal
to target_dir joined with executable_name; no locate or rename of the
produced artifact takes place, so that recorded path names an actual file
only when the archive itself contains an entry of that exact name. -/
theorem install_archive_behavior
    (w : World) (package_name : String) (version asset : Option String)
    (package : PackageInfo) (releases : List Json) (relChoice assetChoice : Nat)
    (archive : ArchiveContents) (release : Json) (assets : List Json)
    (asset_obj : Json) (url filename exe : String)
    (hne : releases.isEmpty = false)
    (hsel : selectRelease releases version relChoice = .ok release)
    (hassets : (Json.index release "assets").asArr = some assets)
    (hasel : selectAsset assets asset assetChoice = .ok asset_obj)
    (hurl : (Json.index asset_obj "browser_download_url").asStr = some url)
    (hname : (Json.index asset_obj "name").asStr = some filename)
    (harc : isArchiveName filename = true)
    (hgood : archive.malformed = false)
    (hexe : package.executable_name = some exe) :
    install w package_name version asset package releases relChoice assetChoice
        archive =
      .ok { data_dir := w.data_dir,
            jsonFs := (w.package_state.add_package package_name
                (tagOrUnknown release) (targetDirFor w package_name release)
                (some (pathJoin (targetDirFor w package_name release) exe))).save
              w.jsonFs w.data_dir,
            files := ((archive.entries.map
                (pathJoin (targetDirFor w package_name release))).foldl addOnce
                (addOnce w.files
                  (pathJoin (targetDirFor w package_name release) filename))).erase
              (pathJoin (targetDirFor w package_name release) filename),
            dirs := addOnce w.dirs (targetDirFor w package_name release),
            pathEntries := add_to_path w.pathEntries
              (targetDirFor w package_name release),
            package_state := w.package_state.add_package package_name
              (tagOrUnknown release) (targetDirFor w package_name release)
              (some (pathJoin (targetDirFor w package_name release) exe)) } := by
  have hdl : pathJoin (targetDirFor w package_name release) filename
      ∈ ((archive.entries.map (pathJoin (targetDirFor w package_name release))).foldl
        addOnce (addOnce w.files
          (pathJoin (targetDirFor w package_name release) filename))) :=
    mem_foldl_addOnce _ _ (mem_addOnce_self _ _)
  simp only [install, hne, hsel, hassets, hasel, hurl, hname, Bool.false_eq_true,
    if_false]
  simp only [afterDownload, afterExtract, extract_archive, download_asset,
    finishInstall, hgood, harc, hexe, Bool.false_eq_true, if_false, if_true]
  rw [remove_file, if_pos hdl]
  simp [Option.map_some]

/-- C5 amended witness: the concrete archive install of the counterexample
matches the amended description exactly. -/
theorem install_archive_behavior_witness :
    c5Result =
      .ok { data_dir := "data",
            jsonFs := ((⟨[]⟩ : PackageState).add_package "foo"
                (tagOrUnknown c5Release) (targetDirFor c5World "foo" c5Release)
                (some (pathJoin (targetDirFor c5World "foo" c5Release) "foo"))).save
              [] "data",
            files := ((c5Archive.entries.map
                (pathJoin (targetDirFor c5World "foo" c5Release))).foldl addOnce
                (addOnce []
                  (pathJoin (targetDirFor c5World "foo" c5Release)
                    "foo-linux.tar.gz"))).erase
              (pathJoin (targetDirFor c5World "foo" c5Release) "foo-linux.tar.gz"),
            dirs := addOnce [] (targetDirFor c5World "foo" c5Release),
            pathEntries := add_to_path [] (targetDirFor c5World "foo" c5Release),
            package_state := (⟨[]⟩ : PackageState).add_package "foo"
              (tagOrUnknown c5Release) (targetDirFor c5World "foo" c5Release)
              (some (pathJoin (targetDirFor c5World "foo" c5Release) "foo")) } :=
  install_archive_behavior c5World "foo" (some "1.2.0") (some "foo-linux.tar.gz")
    c5Pkg [c5Release] 0 0 c5Archive c5Release
    [Json.obj [("name", Json.str "foo-linux.tar.gz"),
      ("browser_download_url", Json.str "https://x/foo-linux.tar.gz")]]
    (Json.obj [("name", Json.str "foo-linux.tar.gz"),
      ("browser_download_url", Json.str "https://x/foo-linux.tar.gz")])
    "https://x/foo-linux.tar.gz" "foo-linux.tar.gz" "foo"
    rfl rfl rfl rfl rfl rfl rfl rfl rfl

/-! ## Claim C6 -/

def c6World : World :=
  { data_dir := "data", jsonFs := [], files := [], dirs := [], pathEntries := [],
    package_state := ⟨[]⟩ }

def c6Pkg : PackageInfo := ⟨"owner/foo", some "foo"⟩

def c6Release : Json :=
  Json.obj [("tag_name", Json.str "3.1"),
    ("assets", Json.arr [Json.obj [("name", Json.str "foo.exe"),
      ("browser_download_url", Json.str "https://x/foo.exe")]])]

def c6Result : InstallOutcome :=
  install c6World "foo" (some "3.1") (some "foo.exe") c6Pkg [c6Release] 0 0
    ⟨[], false⟩

/-- C6 counterexample: the raw asset foo.exe with executable_name foo is
renamed preserving its extension, so the file on disk is
data/packages/foo/3.1/foo.exe, but the ledger records executable_path
data/packages/foo/3.1/foo (target_dir joined with executable_name, main.rs
line 222), which is not the renamed file and names nothing on disk. -/
theorem raw_exe_path_cex :
    c6Result.isOk = true ∧
    "data/packages/foo/3.1/foo.exe" ∈ (outcomeWorld c6Result).files ∧
    (outcomeWorld c6Result).package_state.get_package "foo" =
      some ⟨"3.1", "data/packages/foo/3.1", some "data/packages/foo/3.1/foo"⟩ ∧
    "data/packages/foo/3.1/foo" ∉ (outcomeWorld c6Result).files := by
  refine ⟨rfl, ?_, rfl, ?_⟩ <;> decide

/-- C6 amended: for a non-archive asset no extraction occurs. When
executable_name is set, the downloaded file is renamed to executable_name
with the downloaded file name's extension substituted in (so foo.exe with
executable_name foo stays foo.exe), while the ledger records
executable_path as target_dir joined with the bare executable_name — a path
that coincides with the renamed file only when the downloaded file name has
no extension. When executable_name is unset, the file keeps its downloaded
name and the entry's executable_path is absent. -/
theorem install_raw_behavior
    (w : World) (package_name : String) (version asset : Option String)
    (package : PackageInfo) (releases : List Json) (relChoice assetChoice : Nat)
    (archive : ArchiveContents) (release : Json) (assets : List Json)
    (asset_obj : Json) (url filename : String)
    (hne : releases.isEmpty = false)
    (hsel : selectRelease releases version relChoice = .ok release)
    (hassets : (Json.index release "assets").asArr = some assets)
    (hasel : selectAsset assets asset assetChoice = .ok asset_obj)
    (hurl : (Json.index asset_obj "browser_download_url").asStr = some url)
    (hname : (Json.index asset_obj "name").asStr = some filename)
    (hraw : isArchiveName filename = false) :
    (∀ exe, package.executable_name = some exe →
      install w package_name version asset package releases relChoice assetChoice
          archive =
        .ok { data_dir := w.data_dir,
              jsonFs := (w.package_state.add_package package_name
                  (tagOrUnknown release) (targetDirFor w package_name release)
                  (some (pathJoin (targetDirFor w package_name release) exe))).save
                w.jsonFs w.data_dir,
              files := addOnce
                ((addOnce w.files
                    (pathJoin (targetDirFor w package_name release) filename)).erase
                  (pathJoin (targetDirFor w package_name release) filename))
                (renameTargetFor
                  (pathJoin (targetDirFor w package_name release) filename) exe),
              dirs := addOnce w.dirs (targetDirFor w package_name release),
              pathEntries := add_to_path w.pathEntries
                (targetDirFor w package_name release),
              package_state := w.package_state.add_package package_name
                (tagOrUnknown release) (targetDirFor w package_name release)
                (some (pathJoin (targetDirFor w package_name release) exe)) }) ∧
    (package.executable_name = none →
      install w package_name version asset package releases relChoice assetChoice
          archive =
        .ok { data_dir := w.data_dir,
              jsonFs := (w.package_state.add_package package_name
                  (tagOrUnknown release) (targetDirFor w package_name release)
                  none).save w.jsonFs w.data_dir,
              files := addOnce w.files
                (pathJoin (targetDirFor w package_name release) filename),
              dirs := addOnce w.dirs (targetDirFor w package_name release),
              pathEntries := add_to_path w.pathEntries
                (targetDirFor w package_name release),
              package_state := w.package_state.add_package package_name
                (tagOrUnknown release) (targetDirFor w package_name release)
                none }) := by
  constructor
  · intro exe hexe
    have hmem : pathJoin (targetDirFor w package_name release) filename
        ∈ addOnce w.files (pathJoin (targetDirFor w package_name release) filename) :=
      mem_addOnce_self _ _
    simp only [install, hne, hsel, hassets, hasel, hurl, hname, Bool.false_eq_true,
      if_false]
    simp only [afterDownload, download_asset, finishInstall, hraw, hexe,
      Bool.false_eq_true, if_false]
    rw [rename_file, if_pos hmem]
    simp [Option.map_some]
  · intro hexe
    simp only [install, hne, hsel, hassets, hasel, hurl, hname, Bool.false_eq_true,
      if_false]
    simp only [afterDownload, download_asset, finishInstall, hraw, hexe,
      Bool.false_eq_true, if_false]
    simp [Option.map_none]

/-- C6 amended witness: the concrete raw install of the counterexample
matches the amended description, and a second package without an
executable_name keeps its downloaded file name with no recorded
executable_path. -/
theorem install_raw_behavior_witness :
    (∀ exe, c6Pkg.executable_name = some exe →
      install c6World "foo" (some "3.1") (some "foo.exe") c6Pkg [c6Release] 0 0
          ⟨[], false⟩ =
        .ok { data_dir := "data",
              jsonFs := ((⟨[]⟩ : PackageState).add_package "foo"
                  (tagOrUnknown c6Release) (targetDirFor c6World "foo" c6Release)
                  (some (pathJoin (targetDirFor c6World "foo" c6Release) exe))).save
                [] "data",
              files := addOnce
                ((addOnce []
                    (pathJoin (targetDirFor c6World "foo" c6Release) "foo.exe")).erase
                  (pathJoin (targetDirFor c6World "foo" c6Release) "foo.exe"))
                (renameTargetFor
                  (pathJoin (targetDirFor c6World "foo" c6Release) "foo.exe") exe),
              dirs := addOnce [] (targetDirFor c6World "foo" c6Release),
              pathEntries := add_to_path [] (targetDirFor c6World "foo" c6Release),
              package_state := (⟨[]⟩ : PackageState).add_package "foo"
                (tagOrUnknown c6Release) (targetDirFor c6World "foo" c6Release)
                (some (pathJoin (targetDirFor c6World "foo" c6Release) exe)) }) ∧
    (c6Pkg.executable_name = none →
      install c6World "foo" (some "3.1") (some "foo.exe") c6Pkg [c6Release] 0 0
          ⟨[], false⟩ =
        .ok { data_dir := "data",
              jsonFs := ((⟨[]⟩ : PackageState).add_package "foo"
                  (tagOrUnknown c6Release) (targetDirFor c6World "foo" c6Release)
                  none).save [] "data",
              files := addOnce []
                (pathJoin (targetDirFor c6World "foo" c6Release) "foo.exe"),
              dirs := addOnce [] (targetDirFor c6World "foo" c6Release),
              pathEntries := add_to_path [] (targetDirFor c6World "foo" c6Release),
              package_state := (⟨[]⟩ : PackageState).add_package "foo"
                (tagOrUnknown c6Release) (targetDirFor c6World "foo" c6Release)
                none }) :=
  install_raw_behavior c6World "foo" (some "3.1") (some "foo.exe") c6Pkg
    [c6Release] 0 0 ⟨[], false⟩ c6Release
    [Json.obj [("name", Json.str "foo.exe"),
      ("browser_download_url", Json.str "https://x/foo.exe")]]
    (Json.obj [("name", Json.str "foo.exe"),
      ("browser_download_url", Json.str "https://x/foo.exe")])
    "https://x/foo.exe" "foo.exe"
    rfl rfl rfl rfl rfl rfl rfl

/-! ## Claim C7 -/

def c7World : World :=
  { data_dir := "data", jsonFs := [], files := [], dirs := [], pathEntries := [],
    package_state := ⟨[]⟩ }

def c7Pkg : PackageInfo := ⟨"owner/foo", some "foo"⟩

def c7Release : Json :=
  Json.obj [("tag_name", Json.str "1.0"),
    ("assets", Json.arr [Json.obj [("name", Json.str "foo.tar.gz"),
      ("browser_download_url", Json.str "https://x/foo.tar.gz")]])]

def c7Archive : ArchiveContents := ⟨[], true⟩

def c7Result : InstallOutcome :=
  install c7World "foo" (some "1.0") (some "foo.tar.gz") c7Pkg [c7Release] 0 0
    c7Archive

/-- C7: with a malformed archive, extraction fails with an error, yet the
install completes successfully and records a ledger entry, because the
result of utils::extract_archive is dropped at its call site (main.rs line
205, a bare statement with no question-mark operator): the extraction error
is silently swallowed, the target directory holds no extracted file, the
search path is still extended and the entry is still recorded. -/
theorem extraction_error_swallowed :
    extract_archive c7Archive "data/packages/foo/1.0" =
      .error "malformed archive" ∧
    c7Result.isOk = true ∧
    (outcomeWorld c7Result).package_state.get_package "foo" =
      some ⟨"1.0", "data/packages/foo/1.0", some "data/packages/foo/1.0/foo"⟩ ∧
    (outcomeWorld c7Result).files = [] ∧
    (outcomeWorld c7Result).pathEntries = ["data/packages/foo/1.0"] := by
  exact ⟨rfl, rfl, rfl, rfl, rfl⟩

/-! ## Claims C8 and C9 -/

/-- C8: registry remove of the name default always fails with
cannotRemoveDefaultRegistry, before the configuration is even consulted,
and registry remove of a non-default name that is not configured fails with
registryNotFound; in both failure cases the configuration and the cached
registry directories are returned unchanged. -/
theorem registry_remove_guard (c : Config) (dirs : List String)
    (data_dir name : String)
    (hname : name ≠ "default") (habsent : ∀ r ∈ c.registries, r.name ≠ name) :
    handleRegistryRemove c dirs data_dir "default" =
      (c, dirs, some .cannotRemoveDefaultRegistry) ∧
    handleRegistryRemove c dirs data_dir name =
      (c, dirs, some (.registryNotFound name)) := by
  constructor
  · simp [handleRegistryRemove]
  · have hfilter : c.registries.filter (fun r => r.name != name) = c.registries :=
      List.filter_eq_self.mpr (fun r hr => by simpa using habsent r hr)
    simp [handleRegistryRemove, hname, hfilter]

/-- C8 witness: on a configuration holding only the default registry,
removing default fails with the protection error and removing the absent
name ghost fails with registryNotFound, both leaving the configuration
unchanged. -/
theorem registry_remove_guard_witness :
    handleRegistryRemove ⟨[⟨"default", "https://d", 0⟩]⟩ ["data/registries/default"]
        "data" "default" =
      (⟨[⟨"default", "https://d", 0⟩]⟩, ["data/registries/default"],
        some .cannotRemoveDefaultRegistry) ∧
    handleRegistryRemove ⟨[⟨"default", "https://d", 0⟩]⟩ ["data/registries/default"]
        "data" "ghost" =
      (⟨[⟨"default", "https://d", 0⟩]⟩, ["data/registries/default"],
        some (.registryNotFound "ghost")) :=
  registry_remove_guard ⟨[⟨"default", "https://d", 0⟩]⟩ ["data/registries/default"]
    "data" "ghost" (by decide) (by decide)

/-- C9: registry add of an already-configured name fails with
registryAlreadyExists and returns the configuration untouched; a new name
is appended with the supplied priority, and 0 when no priority was
supplied. -/
theorem registry_add_guard (c c2 : Config) (name url name2 url2 : String)
    (priority prio2 : Option Int)
    (hdup : ∃ r ∈ c.registries, r.name = name)
    (hfresh : ∀ r ∈ c2.registries, r.name ≠ name2) :
    handleRegistryAdd c name url priority =
      (c, some (.registryAlreadyExists name)) ∧
    handleRegistryAdd c2 name2 url2 prio2 =
      (⟨c2.registries ++ [⟨name2, url2, prio2.getD 0⟩]⟩, none) ∧
    handleRegistryAdd c2 name2 url2 none =
      (⟨c2.registries ++ [⟨name2, url2, 0⟩]⟩, none) := by
  have hany : c.registries.any (fun r => r.name == name) = true := by
    obtain ⟨r, hr, he⟩ := hdup
    exact List.any_eq_true.mpr ⟨r, hr, by simpa using he⟩
  have hnone : c2.registries.any (fun r => r.name == name2) = false := by
    rw [Bool.eq_false_iff]
    intro hc
    obtain ⟨r, hr, he⟩ := List.any_eq_true.mp hc
    exact hfresh r hr (by simpa using he)
  refine ⟨?_, ?_, ?_⟩ <;> simp [handleRegistryAdd, hany, hnone]

/-- C9 witness: adding default to a configuration already holding it fails
and leaves it untouched; adding mirror with priority 5 appends it, and
adding mirror with no priority appends it with priority 0. -/
theorem registry_add_guard_witness :
    handleRegistryAdd ⟨[⟨"default", "https://d", 0⟩]⟩ "default" "https://e"
        (some 3) =
      (⟨[⟨"default", "https://d", 0⟩]⟩, some (.registryAlreadyExists "default")) ∧
    handleRegistryAdd ⟨[⟨"default", "https://d", 0⟩]⟩ "mirror" "https://m"
        (some 5) =
      (⟨[⟨"default", "https://d", 0⟩, ⟨"mirror", "https://m", 5⟩]⟩, none) ∧
    handleRegistryAdd ⟨[⟨"default", "https://d", 0⟩]⟩ "mirror" "https://m" none =
      (⟨[⟨"default", "https://d", 0⟩, ⟨"mirror", "https://m", 0⟩]⟩, none) :=
  registry_add_guard ⟨[⟨"default", "https://d", 0⟩]⟩ ⟨[⟨"default", "https://d", 0⟩]⟩
    "default" "https://e" "mirror" "https://m" (some 3) (some 5)
    ⟨⟨"default", "https://d", 0⟩, by decide, rfl⟩ (by decide)

/-! ## Claim C10 -/

/-- C10: when the selected release has no string tag_name, install does not
fail: it proceeds with the fallback string unknown, installing into
data_dir/packages/name/unknown and recording the ledger entry's version as
unknown. There is no invalidRemoteMetadata failure on this path. -/
theorem missing_tag_falls_back_unknown
    (w : World) (package_name : String) (version asset : Option String)
    (package : PackageInfo) (releases : List Json) (relChoice assetChoice : Nat)
    (archive : ArchiveContents) (release : Json) (assets : List Json)
    (asset_obj : Json) (url filename : String)
    (hne : releases.isEmpty = false)
    (hsel : selectRelease releases version relChoice = .ok release)
    (htag : (Json.index release "tag_name").asStr = none)
    (hassets : (Json.index release "assets").asArr = some assets)
    (hasel : selectAsset assets asset assetChoice = .ok asset_obj)
    (hurl : (Json.index asset_obj "browser_download_url").asStr = some url)
    (hname : (Json.index asset_obj "name").asStr = some filename) :
    ∃ w', install w package_name version asset package releases relChoice
        assetChoice archive = .ok w' ∧
      w'.package_state.get_package package_name =
        some ⟨"unknown",
          pathJoin (pathJoin (pathJoin w.data_dir "packages") package_name)
            "unknown",
          package.executable_name.map (pathJoin
            (pathJoin (pathJoin w.data_dir "packages") package_name ++
              "/" ++ "unknown"))⟩ := by
  have hred : install w package_name version asset package releases relChoice
      assetChoice archive =
      afterDownload
        (download_asset w filename (targetDirFor w package_name release)).1
        package_name package release filename
        (download_asset w filename (targetDirFor w package_name release)).2
        (targetDirFor w package_name release) archive := by
    simp only [install, hne, hsel, hassets, hasel, hurl, hname,
      Bool.false_eq_true, if_false]
  have hmem : (download_asset w filename (targetDirFor w package_name release)).2
      ∈ (download_asset w filename (targetDirFor w package_name release)).1.files :=
    mem_addOnce_self _ _
  have hok : (install w package_name version asset package releases relChoice
      assetChoice archive).isOk = true := by
    rw [hred]
    exact afterDownload_always_ok _ package_name package release filename _ _
      archive hmem
  obtain ⟨w', hw'⟩ := isOk_exists hok
  refine ⟨w', hw', ?_⟩
  obtain ⟨r2, hsel2, hps⟩ := install_ok_ledger hw'
  rw [hsel] at hsel2
  injection hsel2 with he
  subst he
  rw [hps]
  simp only [PackageState.get_package, PackageState.add_package, lookupAssoc_upsert]
  simp [tagOrUnknown, targetDirFor, htag, pathJoin]

def c10World : World :=
  { data_dir := "data", jsonFs := [], files := [], dirs := [], pathEntries := [],
    package_state := ⟨[]⟩ }

def c10Release : Json :=
  Json.obj [("assets", Json.arr [Json.obj [("name", Json.str "tool-bin"),
    ("browser_download_url", Json.str "https://x/tool-bin")]])]

/-- C10 witness: a release with no tag_name at all is selected (requesting
the empty version string matches its empty tag fallback) and the install
completes into data/packages/tool/unknown with recorded version unknown. -/
theorem missing_tag_falls_back_unknown_witness :
    ∃ w', install c10World "tool" (some "") (some "tool-bin")
        ⟨"owner/tool", none⟩ [c10Release] 0 0 ⟨[], false⟩ = .ok w' ∧
      w'.package_state.get_package "tool" =
        some ⟨"unknown",
          pathJoin (pathJoin (pathJoin "data" "packages") "tool") "unknown",
          (none : Option String).map (pathJoin
            (pathJoin (pathJoin "data" "packages") "tool" ++ "/" ++ "unknown"))⟩ :=
  missing_tag_falls_back_unknown c10World "tool" (some "") (some "tool-bin")
    ⟨"owner/tool", none⟩ [c10Release] 0 0 ⟨[], false⟩ c10Release
    [Json.obj [("name", Json.str "tool-bin"),
      ("browser_download_url", Json.str "https://x/tool-bin")]]
    (Json.obj [("name", Json.str "tool-bin"),
      ("browser_download_url", Json.str "https://x/tool-bin")])
    "https://x/tool-bin" "tool-bin"
    rfl rfl rfl rfl rfl rfl rfl

end Grip
